import Mathlib

/-!
Verification development for the pyGCxGC GCxGC chromatogram pipeline.

The Python source is shallowly embedded: machine floating-point numbers are
modelled by exact rationals, pandas DataFrames / numpy arrays by lists of
rows, and exceptions by `Except`.  Definitions follow the source functions in
`pyGCxGC/main.py`, `pyGCxGC/parsing.py` and `pyGCxGC/processing.py`; each
definition carries a note naming the function it embeds.
-/

namespace PyGCxGC

/-- One row of the parsed 1D chromatogram (`parse_csv` output): the derived
retention time in seconds (`Ret.Time[s]`) and the detector signal
(`Absolute Intensity`). -/
structure TRow where
  time : ℚ
  intensity : ℚ
deriving DecidableEq, Repr, Inhabited

/-- A dense 2D numeric matrix (pandas DataFrame / numpy 2D array), stored as a
list of rows. -/
abbrev Mat := List (List ℚ)

/-- Number of columns of a matrix (length of its first row). -/
def cols (M : Mat) : ℕ := (M.headD []).length

/-- Column `j` of a matrix, as read positionally (missing entries default
to `0`; all matrices produced by the source are rectangular). -/
def colVals (M : Mat) (j : ℕ) : List ℚ := M.map (fun r => r.getD j 0)

/-- Maximum of a list in the sense of `pandas.Series.max` / `numpy.max`;
`dflt` is only reached on the empty list (where pandas yields `NaN`, a case
none of the theorems below exercise). -/
def pdMax {α : Type} [LinearOrder α] (dflt : α) : List α → α
  | [] => dflt
  | [a] => a
  | a :: b :: t => max a (pdMax dflt (b :: t))

/-- Minimum of a list in the sense of `pandas.Series.min` / `numpy.min`. -/
def pdMin {α : Type} [LinearOrder α] (dflt : α) : List α → α
  | [] => dflt
  | [a] => a
  | a :: b :: t => min a (pdMin dflt (b :: t))

/-- `scipy.integrate.trapezoid` with unit spacing on a 1D sequence:
the sum of successive averages `(v i + v (i+1)) / 2`. -/
def trapezoid : List ℚ → ℚ
  | a :: b :: t => (a + b) / 2 + trapezoid (b :: t)
  | _ => 0

/-- `processing.integrate_2D` (also inlined in `main.normalize_by_volume` and
`main.integrate_masked`): trapezoid over the rows of each column (`axis=0`),
then trapezoid over the resulting per-column totals. -/
def integrate_2D (M : Mat) : ℚ :=
  trapezoid ((List.range (cols M)).map (fun j => trapezoid (colVals M j)))

/-- Elementwise division of a matrix by a scalar (`df_array / c`). -/
def matDiv (M : Mat) (c : ℚ) : Mat := M.map (fun r => r.map (fun x => x / c))

/-- Elementwise subtraction of a scalar from a matrix (`df_array - c`). -/
def matSub (M : Mat) (c : ℚ) : Mat := M.map (fun r => r.map (fun x => x - c))

/-- Elementwise product of two equally shaped matrices
(`chromatogram * mask`). -/
def elemMul (A B : Mat) : Mat := List.zipWith (List.zipWith (fun x y => x * y)) A B

/-- The `.shape` of a 2D array: (number of rows, number of columns). -/
def npShape (M : Mat) : ℕ × ℕ := (M.length, cols M)

/-- `numpy.max` over all elements of a 2D array. -/
def matMax (M : Mat) : ℚ := pdMax 0 M.flatten

/-- `main.normalize_by_volume`: divide every element by the double
trapezoidal integral of the matrix.  The source performs no zero check:
the division happens even when the integral is `0` (in floating point this
silently yields `NaN`/`inf`; in this exact model, division by zero gives
`0`). -/
def normalize_by_volume (df_array : Mat) : Mat :=
  matDiv df_array (integrate_2D df_array)

/-- `pandas` column maximum `df.max()[j]`. -/
def col_max (A : Mat) (j : ℕ) : ℚ := pdMax 0 (colVals A j)

/-- `pandas` column minimum `df.min()[j]`. -/
def col_min (A : Mat) (j : ℕ) : ℚ := pdMin 0 (colVals A j)

/-- `parsing.parse_2D_chromatogram`'s `'max'` normalization in the DataFrame
path (`shift == 0`): `chrom_2D / chrom_2D.max()`.  Since `DataFrame.max()`
is a per-column Series, pandas divides each column by its own maximum. -/
def normalize_max_df (A : Mat) : Mat :=
  A.map (fun r => r.enum.map (fun p => p.2 / col_max A p.1))

/-- `main.baseline_stridewise`: `df_array - df_array.min(axis=0)`, i.e.
subtract from every element the minimum of its column. -/
def baseline_stridewise (df_array : Mat) : Mat :=
  df_array.map (fun r => r.enum.map (fun p => p.2 - col_min df_array p.1))

/-- `main.split_solvent`: set the intensity to 0 for rows whose retention
time is at most the solvent time.  The pandas original mutates the input
DataFrame in place with `df.loc[...] = 0`; here the post-state is the
returned list. -/
def split_solvent (df : List TRow) (solvent_time : ℚ) : List TRow :=
  df.map (fun row => if row.time ≤ solvent_time then { row with intensity := 0 } else row)

/-- `rows_splitting = modulation_time / sampling_interval * 1000` from
`main.add_split` (modulation time in s, sampling interval in ms). -/
def rows_splitting (modulation_time sampling_interval : ℚ) : ℚ :=
  modulation_time / sampling_interval * 1000

/-- The column assignment `df['split_no_fromindex'] = df.index // rows_splitting`
of `main.add_split`: row `i` is tagged with segment number `⌊i / r⌋`. -/
def assign_splits (df : List TRow) (r : ℚ) : List (TRow × ℤ) :=
  (List.range df.length).map (fun i => (df.getD i default, ⌊(i : ℚ) / r⌋))

/-- Number of rows carrying segment number `s`
(`len(df[df['split_no_fromindex'] == s])`). -/
def countSplit (xs : List (TRow × ℤ)) (s : ℤ) : ℕ :=
  (xs.filter (fun p => p.2 == s)).length

/-- `df['split_no_fromindex'].max()`. -/
def maxSplit (xs : List (TRow × ℤ)) : ℤ := pdMax 0 (xs.map Prod.snd)

/-- `df['split_no_fromindex'].min()`. -/
def minSplit (xs : List (TRow × ℤ)) : ℤ := pdMin 0 (xs.map Prod.snd)

/-- The padding `while` loop of `main.add_split`: while the last segment has
fewer rows than the first, append a copy of the last row (`df.iloc[-1]`,
split number included).  The Python loop has no termination guarantee for
arbitrary segment columns, so the embedding uses explicit fuel; `none`
models non-termination and is never reached for the traces the theorems
use. -/
def pad_go : ℕ → List (TRow × ℤ) → Option (List (TRow × ℤ))
  | 0, _ => none
  | n + 1, xs =>
    if countSplit xs (maxSplit xs) < countSplit xs (minSplit xs) then
      pad_go n (xs ++ [(xs.getLast?).getD default])
    else
      some xs

/-- `main.add_split`: tag every row with its segment number, then pad the
final segment by duplicating the last row until it matches the first
segment's length. -/
def add_split (df : List TRow) (modulation_time sampling_interval : ℚ) :
    Option (List (TRow × ℤ)) :=
  let xs := assign_splits df (rows_splitting modulation_time sampling_interval)
  pad_go (xs.length + 1) xs

/-- The per-segment extraction
`df_short[df_short['split_no_fromindex'] == i]['Absolute Intensity'].values`
of `main.convert_to2D`, on the projected (segment, intensity) table. -/
def seg (ys : List (ℤ × ℚ)) (i : ℤ) : List ℚ :=
  (ys.filter (fun p => p.1 == i)).map Prod.snd

/-- `df_short['split_no_fromindex'].max()`. -/
def maxSplitQ (ys : List (ℤ × ℚ)) : ℤ := pdMax 0 (ys.map Prod.fst)

/-- Matrix transposition to `L` rows: row `j` of the result collects entry
`j` of every row of `A` (`pd.DataFrame(array).T` for an `A` whose rows all
have length `L`). -/
def transposeAt (A : Mat) (L : ℕ) : Mat :=
  (List.range L).map (fun j => A.map (fun row => row.getD j 0))

/-- `main.convert_to2D`: collect the intensity vector of every segment
`i ∈ range(0, int(max_split))` — note the final segment `max_split` is NOT
collected — stack them as rows, transpose, and reverse the row order.
`none` models the `IndexError` raised by `array_list[0]` when the loop range
is empty and the `ValueError` raised by `array[i,:] = ...` when segment
lengths disagree. -/
def convert_to2D (xs : List (TRow × ℤ)) : Option Mat :=
  let df_short : List (ℤ × ℚ) := xs.map (fun p => (p.2, p.1.intensity))
  let array_list := (List.range (maxSplitQ df_short).toNat).map
    (fun (i : ℕ) => seg df_short (i : ℤ))
  match array_list with
  | [] => none
  | a0 :: _ =>
    if array_list.all (fun s => s.length == a0.length) then
      some ((transposeAt array_list a0.length).reverse)
    else none

/-- `main.shift_phase`: `np.roll(df_array, shift, axis=0)` — a circular
rotation of the rows; row `i` of the result is row `(i - shift) mod rows`
of the input. -/
def shift_phase (df_array : Mat) (shift : ℤ) : Mat :=
  (List.range df_array.length).map
    (fun (i : ℕ) => df_array.getD (((i : ℤ) - shift) % (df_array.length : ℤ)).toNat [])

/-- `main.is_integer_multiple`: `abs(round(ratio) - ratio) < tolerance` with
the default tolerance `1e-10`.  (Python's banker's rounding and `round` here
pick the same nearest integer except on exact halves, where both leave a
distance of `1/2`, far above the tolerance, so the predicate agrees.
Python raises `ZeroDivisionError` when `smaller = 0`; the theorems using
this definition assume a positive `smaller`.) -/
def is_integer_multiple (larger smaller : ℚ) : Bool :=
  decide (|(round (larger / smaller) : ℚ) - larger / smaller| < 1 / 10 ^ 10)

/-- The `GCxGC_FID` entity of `main.py`.  Field order follows the
constructor signature
`__init__(self, chrom_1D, chrom_2D, sampling_interval, modulation_time, shift, solvent_cutoff)`.
The derived axis-limits list (which only repackages trace bounds and matrix
index labels) is not needed by any claim and is omitted. -/
structure GCxGC_FID where
  chrom_1D : List (TRow × ℤ)
  chrom_2D : Mat
  sampling_interval : ℚ
  modulation_time : ℚ
  shift : ℤ
  solvent_cutoff : ℚ
deriving Repr

/-- Python exceptions surfaced by the pipeline. -/
inductive PErr : Type
  | typeError
  | valueError
  | assertionError
  | attributeError
  | convertError
  | fuelExhausted
deriving DecidableEq, Repr

/-- `baseline_type` options of `parsing.parse_2D_chromatogram` (the
`callable` option, an opaque caller-supplied transform, is outside the
model). -/
inductive BaselineType : Type
  | stridewise
  | globalMin
  | noneB
deriving DecidableEq, Repr

/-- `normalize` options of `parsing.parse_2D_chromatogram`. -/
inductive NormalizeMode : Type
  | volume
  | maxN
  | noneN
deriving DecidableEq, Repr

/-- `chrom['Absolute Intensity'].min()` over the (post-`add_split`)
trace. -/
def minIntensity (xs : List (TRow × ℤ)) : ℚ :=
  pdMin 0 (xs.map (fun p => p.1.intensity))

/-- `parsing.parse_2D_chromatogram` on an in-memory table.  Faithful
details:
* `sampling_interval = none` models `'infer'`:
  `1000 * chrom['Ret.Time[s]'].diff()[1]`;
* the integer-multiple `assert` runs before any 2D construction;
* when `shift ≠ 0`, `shift_phase` (= `np.roll`) returns a bare numpy array,
  so `'max'` normalization divides by the global max, and the `GCxGC_FID`
  constructor then crashes on `chrom_2D.index` with `AttributeError`;
  when `shift = 0` the value stays a DataFrame and `'max'` divides each
  column by its own maximum;
* the final constructor call
  `GCxGC_FID(chrom, chrom_2D, modulation_time, sampling_interval, shift, solvent_cutoff)`
  passes `modulation_time` into the constructor's `sampling_interval`
  parameter and `sampling_interval` into `modulation_time` — the two
  metadata fields are stored swapped, exactly as in the source. -/
def parse_2D_chromatogram (data : List TRow) (modulation_time : ℚ)
    (sampling_interval : Option ℚ) (shift : ℤ) (baseline_type : BaselineType)
    (normalize : NormalizeMode) (solvent_cutoff : ℚ) : Except PErr GCxGC_FID :=
  let chrom := if solvent_cutoff > 0 then split_solvent data solvent_cutoff else data
  let si : ℚ :=
    match sampling_interval with
    | none => 1000 * ((chrom.getD 1 default).time - (chrom.getD 0 default).time)
    | some v => v
  if is_integer_multiple modulation_time si then
    match add_split chrom modulation_time si with
    | none => .error .fuelExhausted
    | some xs =>
      match convert_to2D xs with
      | none => .error .convertError
      | some chrom2D =>
        let m1 := if shift ≠ 0 then shift_phase chrom2D shift else chrom2D
        let m2 :=
          match baseline_type with
          | .stridewise => baseline_stridewise m1
          | .globalMin => matSub m1 (minIntensity xs)
          | .noneB => m1
        let m3 :=
          match normalize with
          | .volume => normalize_by_volume m2
          | .maxN => if shift = 0 then normalize_max_df m2 else matDiv m2 (matMax m2)
          | .noneN => m2
        if shift = 0 then
          .ok { chrom_1D := xs, chrom_2D := m3,
                sampling_interval := modulation_time, modulation_time := si,
                shift := shift, solvent_cutoff := solvent_cutoff }
        else .error .attributeError
  else .error .assertionError

/-- `processing.mask_chromatogram`: check shapes, rescale a byte mask
(max 255) by dividing by 255, leave a mask whose max is already 1 as is
(the second `if` of the source is a self-assignment), then multiply
elementwise. -/
def mask_chromatogram (chromatogram : Mat) (mask : Mat) : Except PErr Mat :=
  if npShape mask ≠ npShape chromatogram then .error .valueError
  else
    let mask1 := if matMax mask = 255 then matDiv mask 255 else mask
    let mask2 := if matMax mask1 = 1 then mask1 else mask1
    .ok (elemMul chromatogram mask2)

/-- `os.path.splitext(...)[0]` for a filename that ends in a four-character
extension such as `.tif`. -/
def stem (s : String) : String := s.dropRight 4

/-- The integration loop of `processing.integrate_masks`: mask, integrate
and name each mask file in order; the first failure aborts the run. -/
def integrate_masks_go (chrom : Mat) : List (String × Mat) → Except PErr (List (String × ℚ))
  | [] => .ok []
  | f :: rest =>
    match mask_chromatogram chrom f.2 with
    | .error e => .error e
    | .ok masked =>
      match integrate_masks_go chrom rest with
      | .error e => .error e
      | .ok t => .ok ((stem f.1, integrate_2D masked) :: t)

/-- `processing.integrate_masks` with a directory argument, the directory
abstracted as its listing (filename, file content): keep the files whose
lowercased name ends in `.tif`, raise `ValueError` if there are none, then
integrate each mask. -/
def integrate_masks (chromatogram_2D : Mat) (dirFiles : List (String × Mat)) :
    Except PErr (List (String × ℚ)) :=
  let mask_list := dirFiles.filter (fun f => f.1.toLower.endsWith (r".tif"))
  if mask_list.length = 0 then .error .valueError
  else integrate_masks_go chromatogram_2D mask_list

/-- `main.integrate_masked`: always divide the mask by 255, multiply, then
double-integrate. -/
def integrate_masked (df_norm_array : Mat) (mask : Mat) : ℚ :=
  integrate_2D (elemMul df_norm_array (matDiv mask 255))

/-- `main.mask_integrate`, the legacy directory integrator: glob `*.tif`
(case-sensitive), derive names by taking the piece before the first dot and
stripping a leading `Mask_` token, integrate each mask, and append the
derived `unassigned = 1 - sum` entry.  An empty directory raises nothing:
the result is then the single-entry `unassigned` table. -/
def mask_integrate (df_array_norm : Mat) (dirFiles : List (String × Mat)) :
    List (String × ℚ) :=
  let mask_list := dirFiles.filter (fun f => f.1.endsWith (r".tif"))
  let mask_names := mask_list.map
    (fun f => ((((f.1.splitOn (r".")).headD (r"")).splitOn (r"Mask_")).getLast?).getD (r""))
  let integral_list := mask_list.map (fun f => integrate_masked df_array_norm f.2)
  mask_names.zip integral_list ++ [((r"unassigned"), 1 - integral_list.sum)]

/-- Abstract block-structured segment table: entry `n` of a `k * L`-sample
table carries segment number `n / L` and payload `g n`.  This is the shape
`assign_splits` produces (projected to (segment, intensity)) whenever the
trace length is an exact multiple of the samples-per-segment count; it is a
proof-side description, not a source function. -/
def blockTrace (k L : ℕ) (g : ℕ → ℚ) : List (ℤ × ℚ) :=
  (List.range (k * L)).map (fun (n : ℕ) => (((n / L : ℕ) : ℤ), g n))

/-- Modelled from the spec: the matrix the Reshaper contract describes for
a trace of `k` segments of `L` samples each — one row per intra-segment
sample, transposed and row-reversed — except that, following the source's
`range(0, int(max))` loop, only segments `0 .. k-2` contribute columns.
Used to state what `convert_to2D` actually returns. -/
def specReshaped (df : List TRow) (k L : ℕ) : Mat :=
  (transposeAt ((List.range (k - 1)).map
    (fun (i : ℕ) => (List.range L).map
      (fun (j : ℕ) => (df.getD (i * L + j) default).intensity))) L).reverse

/-- A concrete 4000-sample trace (times in steps of 1 ms, intensities
`n + 1`): with modulation time 2 s and sampling interval 1 ms it splits
into two segments of 2000 samples. -/
def trace4 : List TRow :=
  (List.range 4000).map (fun (n : ℕ) => ⟨(n : ℚ) / 1000, (n : ℚ) + 1⟩)

/-! ### Generic list/trapezoid lemmas -/

theorem getD_map_div (r : List ℚ) (c : ℚ) (j : ℕ) :
    (r.map (fun x => x / c)).getD j 0 = r.getD j 0 / c := by
  simp only [List.getD_eq_getElem?_getD, List.getElem?_map]
  cases h : r[j]? with
  | none => simp
  | some x => simp

theorem trapezoid_map_div (v : List ℚ) (c : ℚ) :
    trapezoid (v.map (fun x => x / c)) = trapezoid v / c := by
  induction v with
  | nil => simp [trapezoid]
  | cons a l ih =>
    cases l with
    | nil => simp [trapezoid]
    | cons b t =>
      simp only [List.map_cons] at ih ⊢
      rw [trapezoid, trapezoid, ih, ← add_div, div_right_comm, ← add_div]

theorem colVals_matDiv (M : Mat) (c : ℚ) (j : ℕ) :
    colVals (matDiv M c) j = (colVals M j).map (fun x => x / c) := by
  unfold colVals matDiv
  rw [List.map_map, List.map_map]
  exact List.map_congr_left (fun r _ => getD_map_div r c j)

theorem cols_matDiv (M : Mat) (c : ℚ) : cols (matDiv M c) = cols M := by
  cases M <;> simp [cols, matDiv]

theorem integrate_2D_matDiv (M : Mat) (c : ℚ) :
    integrate_2D (matDiv M c) = integrate_2D M / c := by
  unfold integrate_2D
  rw [cols_matDiv, ← trapezoid_map_div, List.map_map]
  congr 1
  exact List.map_congr_left (fun j _ => by
    rw [Function.comp_apply, colVals_matDiv, trapezoid_map_div])

/-! ### C2: volume normalization -/

/-- C2: for every 2D matrix whose double trapezoidal integral is nonzero,
the matrix returned by `normalize_by_volume` has a double trapezoidal
integral (rows per column first, then the per-column totals) equal to `1`,
hence in particular within the claimed `1e-6` tolerance of `1.0`. -/
theorem C2_volume_normalization_integral (M : Mat) (h : integrate_2D M ≠ 0) :
    integrate_2D (normalize_by_volume M) = 1 ∧
    |integrate_2D (normalize_by_volume M) - 1| ≤ 1 / 1000000 := by
  have h1 : integrate_2D (normalize_by_volume M) = 1 := by
    unfold normalize_by_volume
    rw [integrate_2D_matDiv, div_self h]
  exact ⟨h1, by rw [h1]; norm_num⟩

/-- Witness for C2 at the concrete matrix `[[0,0],[0,4]]`, whose raw double
integral is `1`. -/
theorem C2_volume_normalization_integral_witness :
    integrate_2D (normalize_by_volume [[0, 0], [0, 4]]) = 1 ∧
    |integrate_2D (normalize_by_volume [[0, 0], [0, 4]]) - 1| ≤ 1 / 1000000 :=
  C2_volume_normalization_integral [[0, 0], [0, 4]] (by
    norm_num [integrate_2D, cols, colVals, trapezoid, List.range_succ])

/-! ### C6: volume normalization of a zero-integral matrix -/

/-- C6 (amended): `normalize_by_volume` performs no zero-integral check; on
a matrix whose double integral is `0` it divides elementwise by `0` anyway
and returns a matrix — no error of any kind is raised (the function's own
type is matrix-valued, with no error path).  In floating point that silent
division produces `NaN`/`inf` entries; in the exact model the resulting
matrix again has double integral `0` (not `1`). -/
theorem C6_zero_integral_no_error (M : Mat) (h : integrate_2D M = 0) :
    integrate_2D (normalize_by_volume M) = 0 := by
  unfold normalize_by_volume
  rw [integrate_2D_matDiv, h, div_zero]

/-- Witness for C6 (amended) at the all-zero 2×2 matrix. -/
theorem C6_zero_integral_no_error_witness :
    integrate_2D (normalize_by_volume [[0, 0], [0, 0]]) = 0 :=
  C6_zero_integral_no_error [[0, 0], [0, 0]] (by
    norm_num [integrate_2D, cols, colVals, trapezoid, List.range_succ])

/-- Counterexample for C6 as stated: on the all-zero 2×2 matrix (double
integral exactly `0`), `normalize_by_volume` does not fail with any
reportable error — it returns a matrix (in the exact model, the all-zero
matrix itself; in floating point, an all-`NaN` matrix), and that result's
double integral is `0`, not `1`. -/
theorem C6_counterexample :
    normalize_by_volume [[0, 0], [0, 0]] = [[0, 0], [0, 0]] ∧
    integrate_2D [[0, 0], [0, 0]] = 0 := by
  constructor
  · norm_num [normalize_by_volume, matDiv]
  · norm_num [integrate_2D, cols, colVals, trapezoid, List.range_succ]

/-! ### C3: phase shifting -/

theorem length_shift_phase (M : Mat) (s : ℤ) : (shift_phase M s).length = M.length := by
  simp [shift_phase]

theorem shift_phase_eq_rotate (M : Mat) (s : ℤ) :
    shift_phase M s = M.rotate ((-s % (M.length : ℤ)).toNat) := by
  cases hM : M with
  | nil => simp [shift_phase]
  | cons m0 Mt =>
    rw [← hM]
    have hr : 0 < M.length := by rw [hM]; exact Nat.succ_pos _
    have hrz : (M.length : ℤ) ≠ 0 := by exact_mod_cast hr.ne'
    apply List.ext_getElem
    · rw [length_shift_phase, List.length_rotate]
    · intro i h1 h2
      rw [length_shift_phase] at h1
      have hmod_nonneg : 0 ≤ ((i : ℤ) - s) % (M.length : ℤ) := Int.emod_nonneg _ hrz
      have hmod_lt : ((i : ℤ) - s) % (M.length : ℤ) < (M.length : ℤ) :=
        Int.emod_lt_of_pos _ (by exact_mod_cast hr)
      have hlt : (((i : ℤ) - s) % (M.length : ℤ)).toNat < M.length := by omega
      have hL : (shift_phase M s)[i] =
          M.get ⟨(((i : ℤ) - s) % (M.length : ℤ)).toNat, hlt⟩ := by
        simp only [shift_phase, List.getElem_map, List.getElem_range,
          List.getD_eq_getElem?_getD, List.getElem?_eq_getElem hlt, Option.getD_some,
          List.get_eq_getElem]
      rw [hL, List.getElem_rotate, List.get_eq_getElem]
      congr 1
      have hn_nonneg : 0 ≤ -s % (M.length : ℤ) := Int.emod_nonneg _ hrz
      have key : (((i + (-s % (M.length : ℤ)).toNat) % M.length : ℕ) : ℤ) =
          ((((i : ℤ) - s) % (M.length : ℤ)).toNat : ℤ) := by
        push_cast
        rw [Int.toNat_of_nonneg hn_nonneg, Int.toNat_of_nonneg hmod_nonneg,
          Int.add_emod, Int.emod_emod_of_dvd _ dvd_rfl, ← Int.add_emod, sub_eq_add_neg]
      exact_mod_cast key.symm

/-- C3: phase shifts compose additively modulo the row count, and each
single shift is a true circular rotation of the rows — the shifted matrix
is a permutation of the original rows, so no element is lost or
zero-filled. -/
theorem C3_shift_phase_compose_and_rotate (M : Mat) (a b : ℤ) :
    shift_phase (shift_phase M a) b = shift_phase M ((a + b) % (M.length : ℤ)) ∧
    (shift_phase M a).Perm M := by
  refine ⟨?_, by rw [shift_phase_eq_rotate]; exact List.rotate_perm _ _⟩
  cases hM : M with
  | nil => simp [shift_phase]
  | cons m0 Mt =>
    rw [← hM]
    have hr : 0 < M.length := by rw [hM]; exact Nat.succ_pos _
    have hrz : (M.length : ℤ) ≠ 0 := by exact_mod_cast hr.ne'
    have h1 : 0 ≤ -a % (M.length : ℤ) := Int.emod_nonneg _ hrz
    have h2 : 0 ≤ -b % (M.length : ℤ) := Int.emod_nonneg _ hrz
    have h3 : 0 ≤ -((a + b) % (M.length : ℤ)) % (M.length : ℤ) := Int.emod_nonneg _ hrz
    have key : ((-a % (M.length : ℤ)).toNat + (-b % (M.length : ℤ)).toNat) % M.length =
        (-((a + b) % (M.length : ℤ)) % (M.length : ℤ)).toNat % M.length := by
      have hcast : ((((-a % (M.length : ℤ)).toNat + (-b % (M.length : ℤ)).toNat) % M.length : ℕ) : ℤ) =
          (((-((a + b) % (M.length : ℤ)) % (M.length : ℤ)).toNat % M.length : ℕ) : ℤ) := by
        push_cast
        rw [Int.toNat_of_nonneg h1, Int.toNat_of_nonneg h2, Int.toNat_of_nonneg h3,
          Int.add_emod (-a % (M.length : ℤ)), Int.emod_emod_of_dvd _ dvd_rfl,
          Int.emod_emod_of_dvd _ dvd_rfl, ← Int.add_emod,
          Int.emod_emod_of_dvd _ dvd_rfl]
        have hx : -((a + b) % (M.length : ℤ)) =
            -(a + b) + (M.length : ℤ) * ((a + b) / (M.length : ℤ)) := by
          rw [Int.emod_def]; ring
        rw [hx, Int.add_mul_emod_self_left, neg_add]
      exact_mod_cast hcast
    rw [shift_phase_eq_rotate M a, shift_phase_eq_rotate _ b, List.length_rotate,
      List.rotate_rotate, shift_phase_eq_rotate M ((a + b) % (M.length : ℤ)),
      ← List.rotate_mod M ((-a % (M.length : ℤ)).toNat + (-b % (M.length : ℤ)).toNat),
      ← List.rotate_mod M ((-((a + b) % (M.length : ℤ)) % (M.length : ℤ)).toNat), key]

/-! ### pdMax / pdMin toolbox -/

theorem pdMax_cons {α : Type} [LinearOrder α] (d a : α) {l : List α} (h : l ≠ []) :
    pdMax d (a :: l) = max a (pdMax d l) := by
  cases l with
  | nil => exact absurd rfl h
  | cons b t => rfl

theorem pdMin_cons {α : Type} [LinearOrder α] (d a : α) {l : List α} (h : l ≠ []) :
    pdMin d (a :: l) = min a (pdMin d l) := by
  cases l with
  | nil => exact absurd rfl h
  | cons b t => rfl

theorem le_pdMax_of_mem {α : Type} [LinearOrder α] {x : α} {l : List α} (d : α)
    (h : x ∈ l) : x ≤ pdMax d l := by
  induction l with
  | nil => cases h
  | cons a t ih =>
    cases t with
    | nil =>
      rw [List.mem_singleton] at h
      subst h
      exact le_refl _
    | cons b t2 =>
      rw [pdMax]
      rcases List.mem_cons.mp h with h1 | h1
      · subst h1; exact le_max_left _ _
      · exact le_trans (ih h1) (le_max_right _ _)

theorem pdMax_le {α : Type} [LinearOrder α] {B : α} {l : List α} (d : α)
    (hne : l ≠ []) (h : ∀ x ∈ l, x ≤ B) : pdMax d l ≤ B := by
  induction l with
  | nil => exact absurd rfl hne
  | cons a t ih =>
    cases t with
    | nil => exact h a (List.mem_singleton_self a)
    | cons b t2 =>
      rw [pdMax]
      exact max_le (h a (List.mem_cons_self _ _)) (ih (List.cons_ne_nil _ _)
        (fun x hx => h x (List.mem_cons_of_mem _ hx)))

theorem pdMin_le_of_mem {α : Type} [LinearOrder α] {x : α} {l : List α} (d : α)
    (h : x ∈ l) : pdMin d l ≤ x := by
  induction l with
  | nil => cases h
  | cons a t ih =>
    cases t with
    | nil =>
      rw [List.mem_singleton] at h
      subst h
      exact le_refl _
    | cons b t2 =>
      rw [pdMin]
      rcases List.mem_cons.mp h with h1 | h1
      · subst h1; exact min_le_left _ _
      · exact le_trans (min_le_right _ _) (ih h1)

theorem le_pdMin {α : Type} [LinearOrder α] {B : α} {l : List α} (d : α)
    (hne : l ≠ []) (h : ∀ x ∈ l, B ≤ x) : B ≤ pdMin d l := by
  induction l with
  | nil => exact absurd rfl hne
  | cons a t ih =>
    cases t with
    | nil => exact h a (List.mem_singleton_self a)
    | cons b t2 =>
      rw [pdMin]
      exact le_min (h a (List.mem_cons_self _ _)) (ih (List.cons_ne_nil _ _)
        (fun x hx => h x (List.mem_cons_of_mem _ hx)))

theorem pdMax_map_div (l : List ℚ) (c : ℚ) (hc : 0 ≤ c) :
    pdMax 0 (l.map (fun x => x / c)) = pdMax 0 l / c := by
  induction l with
  | nil => simp [pdMax]
  | cons a t ih =>
    cases t with
    | nil => simp [pdMax]
    | cons b t2 =>
      simp only [List.map_cons] at ih ⊢
      rw [pdMax, pdMax, ih, max_div_div_right hc]

/-! ### C5: `max` normalization -/

theorem getD_enum_map_div (r : List ℚ) (g : ℕ → ℚ) (j : ℕ) :
    (r.enum.map (fun p => p.2 / g p.1)).getD j 0 = r.getD j 0 / g j := by
  rcases lt_or_le j r.length with h | h
  · have h1 : j < (r.enum.map (fun p => p.2 / g p.1)).length := by
      simpa using h
    have h2 : j < r.enum.length := by simpa using h
    rw [List.getD_eq_getElem?_getD, List.getElem?_eq_getElem h1,
      List.getD_eq_getElem?_getD, List.getElem?_eq_getElem h]
    simp [List.getElem_enum]
  · rw [List.getD_eq_getElem?_getD, List.getElem?_eq_none (by simpa using h),
      List.getD_eq_getElem?_getD, List.getElem?_eq_none h]
    simp

theorem colVals_normalize_max_df (A : Mat) (j : ℕ) :
    colVals (normalize_max_df A) j = (colVals A j).map (fun x => x / col_max A j) := by
  unfold colVals normalize_max_df
  rw [List.map_map, List.map_map]
  exact List.map_congr_left (fun r _ => getD_enum_map_div r (fun i => col_max A i) j)

/-- C5 (amended): in the pipeline's DataFrame path (`shift = 0`), `'max'`
normalization `chrom_2D / chrom_2D.max()` divides each element by its own
column's maximum (`DataFrame.max()` is per-column), so every column whose
maximum is positive has new maximum exactly `1` — not a single global
scaling. -/
theorem C5_max_normalization_columnwise (A : Mat) (j : ℕ) (_hj : j < cols A)
    (hpos : 0 < col_max A j) :
    col_max (normalize_max_df A) j = 1 := by
  rw [col_max, colVals_normalize_max_df, pdMax_map_div _ _ hpos.le, ← col_max,
    div_self hpos.ne']

/-- Witness for C5 (amended) at the matrix `[[1,2],[1,1]]`, column 1 (its
column maxima are `1` and `2`). -/
theorem C5_max_normalization_columnwise_witness :
    col_max (normalize_max_df [[1, 2], [1, 1]]) 1 = 1 :=
  C5_max_normalization_columnwise [[1, 2], [1, 1]] 1
    (by norm_num [cols])
    (by norm_num [col_max, colVals, pdMax])

/-- Counterexample for C5 as stated: for the matrix `[[1,2],[1,1]]`
(global maximum `2`, positive), the `'max'` normalization actually applied
in the DataFrame pipeline path is NOT division of every element by the
single global maximum: column 0 is divided by `1` and column 1 by `2`,
giving `[[1,1],[1,1/2]]` instead of `[[1/2,1],[1/2,1/2]]`. -/
theorem C5_counterexample :
    normalize_max_df [[1, 2], [1, 1]] ≠
      matDiv [[1, 2], [1, 1]] (matMax [[1, 2], [1, 1]]) := by
  norm_num [normalize_max_df, matDiv, matMax, col_max, colVals, pdMax,
    List.enum, List.enumFrom, List.flatten]

/-! ### C10: masking with a raw (non-255, non-1) mask -/

theorem trapezoid_eq_zero {v : List ℚ} (h : ∀ x ∈ v, x = 0) : trapezoid v = 0 := by
  induction v with
  | nil => rfl
  | cons a t ih =>
    cases t with
    | nil => rfl
    | cons b t2 =>
      rw [trapezoid, ih (fun x hx => h x (List.mem_cons_of_mem _ hx)),
        h a (List.mem_cons_self _ _),
        h b (List.mem_cons_of_mem _ (List.mem_cons_self _ _))]
      norm_num

theorem mem_getD_zero {r : List ℚ} {j : ℕ} (h : ∀ x ∈ r, x = 0) : r.getD j 0 = 0 := by
  rw [List.getD_eq_getElem?_getD]
  cases hj : r[j]? with
  | none => rfl
  | some x => exact h x (List.getElem?_mem hj)

theorem integrate_2D_eq_zero {M : Mat} (h : ∀ r ∈ M, ∀ x ∈ r, x = 0) :
    integrate_2D M = 0 := by
  unfold integrate_2D
  apply trapezoid_eq_zero
  intro y hy
  rcases List.mem_map.mp hy with ⟨j, _, rfl⟩
  apply trapezoid_eq_zero
  intro z hz
  rcases List.mem_map.mp hz with ⟨r, hr, rfl⟩
  exact mem_getD_zero (h r hr)

theorem of_mem_zipWith {α β γ : Type} {f : α → β → γ} :
    ∀ {l₁ : List α} {l₂ : List β} {c : γ}, c ∈ List.zipWith f l₁ l₂ →
      ∃ x ∈ l₁, ∃ y ∈ l₂, c = f x y := by
  intro l₁
  induction l₁ with
  | nil => intro l₂ c h; simp at h
  | cons a t ih =>
    intro l₂ c h
    cases l₂ with
    | nil => simp at h
    | cons b t2 =>
      rw [List.zipWith_cons_cons] at h
      rcases List.mem_cons.mp h with h1 | h1
      · exact ⟨a, List.mem_cons_self _ _, b, List.mem_cons_self _ _, h1⟩
      · rcases ih h1 with ⟨x, hx, y, hy, hc⟩
        exact ⟨x, List.mem_cons_of_mem _ hx, y, List.mem_cons_of_mem _ hy, hc⟩

theorem elemMul_zero_right {A Z : Mat} (hZ : ∀ r ∈ Z, ∀ x ∈ r, x = 0) :
    ∀ r ∈ elemMul A Z, ∀ x ∈ r, x = 0 := by
  intro r hr x hx
  rcases of_mem_zipWith hr with ⟨rA, _, rZ, hrZ, rfl⟩
  rcases of_mem_zipWith hx with ⟨a, _, z, hz, rfl⟩
  rw [hZ rZ hrZ z hz, mul_zero]

/-- C10: for a shape-matching mask whose maximum is neither 255 nor 1,
`mask_chromatogram` applies no rescaling and returns the elementwise
product of the chromatogram with the raw mask values; in particular an
all-zero mask yields an all-zero masked chromatogram whose double integral
is 0. -/
theorem C10_mask_raw_product (chromatogram mask : Mat)
    (hsh : npShape mask = npShape chromatogram)
    (h255 : matMax mask ≠ 255) (_h1 : matMax mask ≠ 1) :
    mask_chromatogram chromatogram mask = .ok (elemMul chromatogram mask) ∧
    ((∀ r ∈ mask, ∀ x ∈ r, x = 0) →
      integrate_2D (elemMul chromatogram mask) = 0) := by
  constructor
  · unfold mask_chromatogram
    rw [if_neg (fun hcontra => hcontra hsh), if_neg h255]
    simp only [ite_self]
  · intro hz
    exact integrate_2D_eq_zero (elemMul_zero_right hz)

/-- Witness for C10 at the chromatogram `[[1,2],[3,4]]` and the all-zero
2×2 mask (maximum `0`, so neither 255 nor 1). -/
theorem C10_mask_raw_product_witness :
    mask_chromatogram [[1, 2], [3, 4]] [[0, 0], [0, 0]] =
      .ok (elemMul [[1, 2], [3, 4]] [[0, 0], [0, 0]]) ∧
    integrate_2D (elemMul [[1, 2], [3, 4]] [[0, 0], [0, 0]]) = 0 := by
  have h := C10_mask_raw_product [[1, 2], [3, 4]] [[0, 0], [0, 0]]
    (by norm_num [npShape, cols])
    (by norm_num [matMax, pdMax, List.flatten, max_def])
    (by norm_num [matMax, pdMax, List.flatten, max_def])
  refine ⟨h.1, h.2 ?_⟩
  intro r hr x hx
  rcases List.mem_cons.mp hr with h1 | h1
  · subst h1
    rcases List.mem_cons.mp hx with h2 | h2
    · exact h2
    · simpa using h2
  · rw [List.mem_singleton] at h1
    subst h1
    rcases List.mem_cons.mp hx with h2 | h2
    · exact h2
    · simpa using h2

/-! ### C8: empty mask directory -/

/-- C8 (amended): `processing.integrate_masks` refuses an empty mask
directory — when the listing contains no file whose lowercased name ends in
`.tif`, it raises `ValueError` (the spec's `ConfigurationError`
equivalent) and returns no mapping.  (The legacy `main.mask_integrate`
does NOT share this behaviour; see the counterexample.) -/
theorem C8_empty_mask_directory (chromatogram_2D : Mat)
    (dirFiles : List (String × Mat))
    (hempty : dirFiles.filter (fun f => f.1.toLower.endsWith (r".tif")) = []) :
    integrate_masks chromatogram_2D dirFiles = .error .valueError := by
  unfold integrate_masks
  rw [hempty]
  rfl

/-- Witness for C8 (amended): the literally empty directory listing. -/
theorem C8_empty_mask_directory_witness :
    integrate_masks [[1]] [] = .error .valueError :=
  C8_empty_mask_directory [[1]] [] rfl

/-- Counterexample for C8 as stated: the legacy directory integrator
`main.mask_integrate` (one of the two Mask Integrator entry points the
claim covers), applied to an empty directory, raises nothing and returns
a masks-free mapping containing only the derived entry
`unassigned = 1 - 0 = 1`. -/
theorem C8_counterexample :
    mask_integrate [[1]] [] = [((r"unassigned"), 1)] := by
  norm_num [mask_integrate]

/-! ### C9: the pipeline mutates the parsed trace -/

theorem pad_go_append :
    ∀ (n : ℕ) (xs ys : List (TRow × ℤ)), pad_go n xs = some ys → ∃ t, ys = xs ++ t := by
  intro n
  induction n with
  | zero => intro xs ys h; simp [pad_go] at h
  | succ n ih =>
    intro xs ys h
    rw [pad_go] at h
    by_cases hc : countSplit xs (maxSplit xs) < countSplit xs (minSplit xs)
    · rw [if_pos hc] at h
      rcases ih _ _ h with ⟨t, rfl⟩
      exact ⟨(xs.getLast?).getD default :: t, by simp⟩
    · rw [if_neg hc] at h
      exact ⟨[], by simpa using h.symm⟩

theorem assign_splits_getD (df : List TRow) (r : ℚ) (i : ℕ) (h : i < df.length) :
    (assign_splits df r).getD i default = (df.getD i default, ⌊(i : ℚ) / r⌋) := by
  unfold assign_splits
  have h1 : i < ((List.range df.length).map
      (fun i => (df.getD i default, ⌊(i : ℚ) / r⌋))).length := by simpa using h
  rw [List.getD_eq_getElem?_getD, List.getElem?_eq_getElem h1]
  simp

theorem length_assign_splits (df : List TRow) (r : ℚ) :
    (assign_splits df r).length = df.length := by
  simp [assign_splits]

/-- C9 (amended): the solvent-cutoff and splitting stages do not leave the
parsed trace unchanged — they rewrite it (in pandas, in place on the very
DataFrame the caller passed in).  Precisely: `split_solvent` keeps the row
count and every retention time but zeroes the intensity of every row with
time ≤ cutoff (leaving the others), and `add_split` extends the trace (its
result projects back onto every original row position, with extra padding
rows only appended at the end, plus a new segment-number column). -/
theorem C9_trace_mutation (df : List TRow) (c mt si : ℚ) :
    (split_solvent df c).length = df.length ∧
    (∀ i, i < df.length →
      ((split_solvent df c).getD i default).time = (df.getD i default).time ∧
      ((split_solvent df c).getD i default).intensity =
        (if (df.getD i default).time ≤ c then 0 else (df.getD i default).intensity)) ∧
    (∀ xs, add_split (split_solvent df c) mt si = some xs →
      df.length ≤ xs.length ∧
      ∀ i, i < df.length →
        (xs.getD i default).1 = (split_solvent df c).getD i default) := by
  have hlen : (split_solvent df c).length = df.length := by simp [split_solvent]
  have hget : ∀ i, i < df.length →
      (split_solvent df c).getD i default =
        (if (df.getD i default).time ≤ c then
          { df.getD i default with intensity := 0 } else df.getD i default) := by
    intro i hi
    have h1 : i < (split_solvent df c).length := by rwa [hlen]
    rw [List.getD_eq_getElem?_getD, List.getElem?_eq_getElem h1,
      List.getD_eq_getElem?_getD, List.getElem?_eq_getElem hi]
    simp [split_solvent]
  refine ⟨hlen, ?_, ?_⟩
  · intro i hi
    rw [hget i hi]
    by_cases hc : (df.getD i default).time ≤ c
    · rw [if_pos hc, if_pos hc]
      exact ⟨rfl, rfl⟩
    · rw [if_neg hc, if_neg hc]
      exact ⟨rfl, rfl⟩
  · intro xs hxs
    unfold add_split at hxs
    rcases pad_go_append _ _ _ hxs with ⟨t, rfl⟩
    constructor
    · calc df.length = (assign_splits (split_solvent df c)
            (rows_splitting mt si)).length := by rw [length_assign_splits, hlen]
        _ ≤ _ := by simp
    · intro i hi
      have h2 : i < (assign_splits (split_solvent df c)
          (rows_splitting mt si)).length := by rw [length_assign_splits, hlen]; exact hi
      rw [List.getD_eq_getElem?_getD, List.getElem?_append_left h2,
        ← List.getD_eq_getElem?_getD,
        assign_splits_getD _ _ _ (by rw [hlen]; exact hi)]

/-- Witness for C9 (amended) at the one-row trace `[(time 0, intensity 5)]`
with cutoff `1`: the stored intensity becomes `0` (since `0 ≤ 1`), the
time and row count survive, and the `add_split` result projects back onto
the rewritten row. -/
theorem C9_trace_mutation_witness :
    (split_solvent ([⟨0, 5⟩] : List TRow) 1).length = ([⟨0, 5⟩] : List TRow).length ∧
    ((split_solvent ([⟨0, 5⟩] : List TRow) 1).getD 0 default).intensity =
      (if (([⟨0, 5⟩] : List TRow).getD 0 default).time ≤ 1 then 0
       else (([⟨0, 5⟩] : List TRow).getD 0 default).intensity) ∧
    (([⟨0, 5⟩] : List TRow).length ≤
      ([((⟨0, 0⟩ : TRow), (0 : ℤ))] : List (TRow × ℤ)).length) ∧
    (([((⟨0, 0⟩ : TRow), (0 : ℤ))] : List (TRow × ℤ)).getD 0 default).1 =
      (split_solvent ([⟨0, 5⟩] : List TRow) 1).getD 0 default := by
  have hadd : add_split (split_solvent ([⟨0, 5⟩] : List TRow) 1) 1 500 =
      some ([((⟨0, 0⟩ : TRow), (0 : ℤ))] : List (TRow × ℤ)) := by
    have hs : split_solvent ([⟨0, 5⟩] : List TRow) 1 = [⟨0, 0⟩] := by
      norm_num [split_solvent]
    have hfl : ⌊(0 : ℚ) / rows_splitting 1 500⌋ = 0 := by
      norm_num
    rw [hs]
    unfold add_split assign_splits
    simp only [List.length_cons, List.length_nil, List.range_succ, List.range_zero,
      List.nil_append, List.map_cons, List.map_nil, hfl]
    rw [pad_go]
    norm_num [countSplit, maxSplit, minSplit, pdMax, pdMin]
  have h := C9_trace_mutation ([⟨0, 5⟩] : List TRow) 1 1 500
  have h3 := h.2.2 _ hadd
  exact ⟨h.1, (h.2.1 0 (by norm_num)).2, h3.1, h3.2 0 (by norm_num)⟩

/-- Counterexample for C9 as stated: with solvent cutoff `1`, the trace
`[(time 0, intensity 5), (time 2, intensity 7)]` does not survive the
solvent-cutoff stage unchanged — `split_solvent` (which pandas applies in
place to the parsed DataFrame itself) rewrites the first row's intensity
from `5` to `0`. -/
theorem C9_counterexample :
    split_solvent ([⟨0, 5⟩, ⟨2, 7⟩] : List TRow) 1 ≠ ([⟨0, 5⟩, ⟨2, 7⟩] : List TRow) := by
  norm_num [split_solvent]

/-! ### Block-structure lemmas for the Splitter and Reshaper -/

theorem floor_nat_div (n L : ℕ) (hL : 0 < L) :
    ⌊(n : ℚ) / (L : ℚ)⌋ = ((n / L : ℕ) : ℤ) := by
  have hLQ : (0 : ℚ) < (L : ℚ) := by exact_mod_cast hL
  rw [Int.floor_eq_iff]
  constructor
  · rw [le_div_iff₀ hLQ]
    exact_mod_cast Nat.div_mul_le_self n L
  · rw [div_lt_iff₀ hLQ]
    have h := @Nat.lt_div_mul_add n L hL
    push_cast
    rw [add_mul, one_mul]
    exact_mod_cast h

theorem assign_splits_natL (df : List TRow) (L : ℕ) (hL : 0 < L) :
    assign_splits df (L : ℚ) =
      (List.range df.length).map
        (fun (n : ℕ) => (df.getD n default, ((n / L : ℕ) : ℤ))) := by
  unfold assign_splits
  apply List.map_congr_left
  intro n _
  rw [floor_nat_div n L hL]

theorem seg_append (A B : List (ℤ × ℚ)) (i : ℤ) :
    seg (A ++ B) i = seg A i ++ seg B i := by
  unfold seg
  rw [List.filter_append, List.map_append]

theorem blockTrace_succ (k L : ℕ) (hL : 0 < L) (g : ℕ → ℚ) :
    blockTrace (k + 1) L g =
      blockTrace k L g ++
        (List.range L).map (fun (j : ℕ) => ((k : ℤ), g (k * L + j))) := by
  unfold blockTrace
  rw [Nat.succ_mul, List.range_add, List.map_append, List.map_map]
  congr 1
  apply List.map_congr_left
  intro j hj
  rw [List.mem_range] at hj
  have hdiv : (k * L + j) / L = k := by
    rw [Nat.mul_comm k L, Nat.mul_add_div hL, Nat.div_eq_of_lt hj, Nat.add_zero]
  simp only [Function.comp_apply, hdiv]

theorem seg_blockTrace_ge (k L : ℕ) (hL : 0 < L) (g : ℕ → ℚ) (i : ℤ)
    (hi : (k : ℤ) ≤ i) : seg (blockTrace k L g) i = [] := by
  unfold seg
  rw [List.filter_eq_nil_iff.mpr, List.map_nil]
  intro p hp
  rcases List.mem_map.mp hp with ⟨n, hn, rfl⟩
  rw [List.mem_range] at hn
  have h1 : n / L < k := (Nat.div_lt_iff_lt_mul hL).mpr hn
  simp only [beq_iff_eq]
  intro heq
  rw [← heq] at hi
  exact absurd (by exact_mod_cast hi) (Nat.not_le_of_lt h1)

theorem seg_blockTrace (L : ℕ) (hL : 0 < L) (g : ℕ → ℚ) :
    ∀ (k i : ℕ), i < k →
      seg (blockTrace k L g) (i : ℤ) =
        (List.range L).map (fun (j : ℕ) => g (i * L + j)) := by
  intro k
  induction k with
  | zero => intro i hi; omega
  | succ k ih =>
    intro i hi
    rw [blockTrace_succ k L hL g, seg_append]
    by_cases hik : i < k
    · rw [ih i hik]
      have hnil : seg ((List.range L).map
          (fun (j : ℕ) => ((k : ℤ), g (k * L + j)))) (i : ℤ) = [] := by
        unfold seg
        rw [List.filter_eq_nil_iff.mpr, List.map_nil]
        intro p hp
        rcases List.mem_map.mp hp with ⟨j, _, rfl⟩
        simp only [beq_iff_eq]
        intro heq
        have : k = i := by exact_mod_cast heq
        omega
      rw [hnil, List.append_nil]
    · have hik2 : i = k := by omega
      subst hik2
      rw [seg_blockTrace_ge i L hL g (i : ℤ) le_rfl, List.nil_append]
      unfold seg
      rw [List.filter_eq_self.mpr, List.map_map]
      · apply List.map_congr_left
        intro j _
        rfl
      · intro p hp
        rcases List.mem_map.mp hp with ⟨j, _, rfl⟩
        simp

theorem seg_length_blockTrace (k L : ℕ) (g : ℕ → ℚ) (s : ℤ) :
    (seg (blockTrace k L g) s).length =
      ((List.range (k * L)).filter
        (fun (n : ℕ) => (((n / L : ℕ) : ℤ) == s))).length := by
  unfold seg blockTrace
  rw [List.length_map, List.filter_map, List.length_map]
  rfl

theorem countSplit_rangeMap (payload : ℕ → TRow) (N L : ℕ) (s : ℤ) :
    countSplit ((List.range N).map
        (fun (n : ℕ) => (payload n, ((n / L : ℕ) : ℤ)))) s =
      ((List.range N).filter
        (fun (n : ℕ) => (((n / L : ℕ) : ℤ) == s))).length := by
  unfold countSplit
  rw [List.filter_map, List.length_map]
  rfl

theorem pdMax_div_range (k L : ℕ) (hk : 1 ≤ k) (hL : 0 < L) :
    pdMax 0 ((List.range (k * L)).map (fun (n : ℕ) => ((n / L : ℕ) : ℤ))) =
      ((k - 1 : ℕ) : ℤ) := by
  have hNL : 0 < k * L := Nat.mul_pos (by omega) hL
  have hne : (List.range (k * L)).map (fun (n : ℕ) => ((n / L : ℕ) : ℤ)) ≠ [] := by
    simp [List.range_eq_nil, hNL.ne']
  apply le_antisymm
  · apply pdMax_le _ hne
    intro x hx
    rcases List.mem_map.mp hx with ⟨n, hn, rfl⟩
    rw [List.mem_range] at hn
    have h1 : n / L < k := (Nat.div_lt_iff_lt_mul hL).mpr hn
    have h2 : n / L ≤ k - 1 := by omega
    exact_mod_cast h2
  · apply le_pdMax_of_mem
    apply List.mem_map.mpr
    refine ⟨(k - 1) * L, List.mem_range.mpr ?_, ?_⟩
    · exact (Nat.mul_lt_mul_right hL).mpr (by omega)
    · rw [Nat.mul_div_cancel _ hL]
  
theorem pdMin_div_range (k L : ℕ) (hk : 1 ≤ k) (hL : 0 < L) :
    pdMin 0 ((List.range (k * L)).map (fun (n : ℕ) => ((n / L : ℕ) : ℤ))) = 0 := by
  have hNL : 0 < k * L := Nat.mul_pos (by omega) hL
  have hne : (List.range (k * L)).map (fun (n : ℕ) => ((n / L : ℕ) : ℤ)) ≠ [] := by
    simp [List.range_eq_nil, hNL.ne']
  apply le_antisymm
  · apply pdMin_le_of_mem
    apply List.mem_map.mpr
    exact ⟨0, List.mem_range.mpr hNL, by simp⟩
  · apply le_pdMin _ hne
    intro x hx
    rcases List.mem_map.mp hx with ⟨n, _, rfl⟩
    exact_mod_cast Nat.zero_le _

theorem maxSplit_rangeMap (payload : ℕ → TRow) (k L : ℕ) (hk : 1 ≤ k) (hL : 0 < L) :
    maxSplit ((List.range (k * L)).map
      (fun (n : ℕ) => (payload n, ((n / L : ℕ) : ℤ)))) = ((k - 1 : ℕ) : ℤ) := by
  unfold maxSplit
  rw [List.map_map]
  exact pdMax_div_range k L hk hL

theorem minSplit_rangeMap (payload : ℕ → TRow) (k L : ℕ) (hk : 1 ≤ k) (hL : 0 < L) :
    minSplit ((List.range (k * L)).map
      (fun (n : ℕ) => (payload n, ((n / L : ℕ) : ℤ)))) = 0 := by
  unfold minSplit
  rw [List.map_map]
  exact pdMin_div_range k L hk hL

theorem countSplit_block (payload : ℕ → TRow) (k L : ℕ) (hL : 0 < L)
    (i : ℕ) (hik : i < k) :
    countSplit ((List.range (k * L)).map
      (fun (n : ℕ) => (payload n, ((n / L : ℕ) : ℤ)))) (i : ℤ) = L := by
  rw [countSplit_rangeMap payload (k * L) L (i : ℤ),
    ← seg_length_blockTrace k L (fun _ => 0) (i : ℤ),
    seg_blockTrace L hL (fun _ => 0) k i hik]
  simp

theorem add_split_block (df : List TRow) (mt si : ℚ) (k L : ℕ)
    (hk : 1 ≤ k) (hL : 0 < L) (hr : rows_splitting mt si = (L : ℚ))
    (hlen : df.length = k * L) :
    add_split df mt si = some (assign_splits df (rows_splitting mt si)) := by
  have hxs : assign_splits df (rows_splitting mt si) =
      (List.range (k * L)).map
        (fun (n : ℕ) => (df.getD n default, ((n / L : ℕ) : ℤ))) := by
    rw [hr, assign_splits_natL df L hL, hlen]
  unfold add_split
  rw [hxs]
  have hmax : maxSplit ((List.range (k * L)).map
      (fun (n : ℕ) => (df.getD n default, ((n / L : ℕ) : ℤ)))) = ((k - 1 : ℕ) : ℤ) :=
    maxSplit_rangeMap (fun n => df.getD n default) k L hk hL
  have hmin : minSplit ((List.range (k * L)).map
      (fun (n : ℕ) => (df.getD n default, ((n / L : ℕ) : ℤ)))) = 0 :=
    minSplit_rangeMap (fun n => df.getD n default) k L hk hL
  have hcmax : countSplit ((List.range (k * L)).map
      (fun (n : ℕ) => (df.getD n default, ((n / L : ℕ) : ℤ)))) (((k - 1 : ℕ) : ℤ)) = L :=
    countSplit_block (fun n => df.getD n default) k L hL (k - 1) (by omega)
  have hcmin : countSplit ((List.range (k * L)).map
      (fun (n : ℕ) => (df.getD n default, ((n / L : ℕ) : ℤ)))) 0 = L := by
    have h0 := countSplit_block (fun n => df.getD n default) k L hL 0 (by omega)
    simpa using h0
  have hcond : ¬ (countSplit ((List.range (k * L)).map
        (fun (n : ℕ) => (df.getD n default, ((n / L : ℕ) : ℤ))))
        (maxSplit ((List.range (k * L)).map
          (fun (n : ℕ) => (df.getD n default, ((n / L : ℕ) : ℤ))))) <
      countSplit ((List.range (k * L)).map
        (fun (n : ℕ) => (df.getD n default, ((n / L : ℕ) : ℤ))))
        (minSplit ((List.range (k * L)).map
          (fun (n : ℕ) => (df.getD n default, ((n / L : ℕ) : ℤ)))))) := by
    rw [hmax, hmin, hcmax, hcmin]
    exact lt_irrefl L
  rw [pad_go, if_neg hcond]

theorem convert_to2D_eq_of (xs : List (TRow × ℤ)) (a0 : List ℚ) (rest : List (List ℚ))
    (harr : (List.range (maxSplitQ (xs.map (fun p => (p.2, p.1.intensity)))).toNat).map
        (fun (i : ℕ) => seg (xs.map (fun p => (p.2, p.1.intensity))) (i : ℤ)) = a0 :: rest)
    (hall : ∀ s ∈ a0 :: rest, s.length = a0.length) :
    convert_to2D xs = some ((transposeAt (a0 :: rest) a0.length).reverse) := by
  have hcond : ((a0 :: rest).all (fun s => s.length == a0.length)) = true :=
    List.all_eq_true.mpr (fun s hs => beq_iff_eq.mpr (hall s hs))
  simp only [convert_to2D]
  rw [harr]
  simp only [hcond, if_true]

theorem convert_to2D_block (df : List TRow) (k L : ℕ) (hk : 2 ≤ k) (hL : 0 < L) :
    convert_to2D ((List.range (k * L)).map
        (fun (n : ℕ) => (df.getD n default, ((n / L : ℕ) : ℤ)))) =
      some (specReshaped df k L) := by
  have hshort : ((List.range (k * L)).map
      (fun (n : ℕ) => (df.getD n default, ((n / L : ℕ) : ℤ)))).map
        (fun p => (p.2, p.1.intensity)) =
      blockTrace k L (fun n => (df.getD n default).intensity) := by
    rw [List.map_map]
    rfl
  have hmaxQ : maxSplitQ (blockTrace k L (fun n => (df.getD n default).intensity)) =
      ((k - 1 : ℕ) : ℤ) := by
    unfold maxSplitQ blockTrace
    rw [List.map_map]
    exact pdMax_div_range k L (by omega) hL
  have harr : (List.range (maxSplitQ (blockTrace k L
        (fun n => (df.getD n default).intensity))).toNat).map
        (fun (i : ℕ) => seg (blockTrace k L
          (fun n => (df.getD n default).intensity)) (i : ℤ)) =
      (List.range (k - 1)).map
        (fun (i : ℕ) => (List.range L).map
          (fun (j : ℕ) => (df.getD (i * L + j) default).intensity)) := by
    rw [hmaxQ, Int.toNat_natCast]
    apply List.map_congr_left
    intro i hi
    rw [List.mem_range] at hi
    exact seg_blockTrace L hL _ k i (by omega)
  obtain ⟨k2, hk2⟩ : ∃ k2, k - 1 = k2 + 1 := ⟨k - 2, by omega⟩
  have hcons : (List.range (k - 1)).map
      (fun (i : ℕ) => (List.range L).map
        (fun (j : ℕ) => (df.getD (i * L + j) default).intensity)) =
      ((List.range L).map (fun (j : ℕ) => (df.getD (0 * L + j) default).intensity)) ::
        ((List.range k2).map Nat.succ).map
          (fun (i : ℕ) => (List.range L).map
            (fun (j : ℕ) => (df.getD (i * L + j) default).intensity)) := by
    rw [hk2, List.range_succ_eq_map, List.map_cons, List.map_map]
  have hlen0 : ((List.range L).map
      (fun (j : ℕ) => (df.getD (0 * L + j) default).intensity)).length = L := by
    simp
  have heq := convert_to2D_eq_of ((List.range (k * L)).map
      (fun (n : ℕ) => (df.getD n default, ((n / L : ℕ) : ℤ))))
    ((List.range L).map (fun (j : ℕ) => (df.getD (0 * L + j) default).intensity))
    (((List.range k2).map Nat.succ).map
      (fun (i : ℕ) => (List.range L).map
        (fun (j : ℕ) => (df.getD (i * L + j) default).intensity)))
    (by rw [hshort, harr, hcons])
    (by
      intro s hs
      rw [hlen0]
      rcases List.mem_cons.mp hs with h1 | h1
      · rw [h1]
        exact hlen0
      · rcases List.mem_map.mp h1 with ⟨i, _, rfl⟩
        simp)
  rw [heq, hlen0, ← hcons]
  rfl

theorem add_split_convert_block (df : List TRow) (mt si : ℚ) (k L : ℕ)
    (hk : 2 ≤ k) (hL : 0 < L) (hr : rows_splitting mt si = (L : ℚ))
    (hlen : df.length = k * L) :
    add_split df mt si = some (assign_splits df (rows_splitting mt si)) ∧
    convert_to2D (assign_splits df (rows_splitting mt si)) =
      some (specReshaped df k L) := by
  have hxs : assign_splits df (rows_splitting mt si) =
      (List.range (k * L)).map
        (fun (n : ℕ) => (df.getD n default, ((n / L : ℕ) : ℤ))) := by
    rw [hr, assign_splits_natL df L hL, hlen]
  refine ⟨add_split_block df mt si k L (by omega) hL hr hlen, ?_⟩
  rw [hxs]
  exact convert_to2D_block df k L hk hL

theorem specReshaped_length (df : List TRow) (k L : ℕ) :
    (specReshaped df k L).length = L := by
  simp [specReshaped, transposeAt]

theorem specReshaped_row_length (df : List TRow) (k L : ℕ) :
    ∀ row ∈ specReshaped df k L, row.length = k - 1 := by
  intro row hrow
  unfold specReshaped transposeAt at hrow
  rw [List.mem_reverse] at hrow
  rcases List.mem_map.mp hrow with ⟨j, _, rfl⟩
  simp

theorem getD_range_map {α : Type} (f : ℕ → α) (N j : ℕ) (hj : j < N) (d : α) :
    ((List.range N).map f).getD j d = f j := by
  have h1 : j < ((List.range N).map f).length := by simpa using hj
  rw [List.getD_eq_getElem?_getD, List.getElem?_eq_getElem h1, Option.getD_some,
    List.getElem_map, List.getElem_range]

theorem getD_reverse_of_lt {α : Type} (l : List α) (r : ℕ) (hr : r < l.length) (d : α) :
    l.reverse.getD r d = l.getD (l.length - 1 - r) d := by
  have h1 : r < l.reverse.length := by simpa using hr
  have h2 : l.length - 1 - r < l.length := by omega
  rw [List.getD_eq_getElem?_getD, List.getElem?_eq_getElem h1, Option.getD_some,
    List.getElem_reverse, List.getD_eq_getElem?_getD, List.getElem?_eq_getElem h2,
    Option.getD_some]

theorem specReshaped_entry (df : List TRow) (k L : ℕ) (r c : ℕ)
    (hrL : r < L) (hc : c < k - 1) :
    ((specReshaped df k L).getD r []).getD c 0 =
      (df.getD (c * L + (L - 1 - r)) default).intensity := by
  unfold specReshaped
  have hlenT : (transposeAt ((List.range (k - 1)).map
      (fun (i : ℕ) => (List.range L).map
        (fun (j : ℕ) => (df.getD (i * L + j) default).intensity))) L).length = L := by
    simp [transposeAt]
  rw [getD_reverse_of_lt _ r (by rw [hlenT]; exact hrL) [], hlenT]
  unfold transposeAt
  rw [getD_range_map _ L (L - 1 - r) (by omega) [], List.map_map,
    getD_range_map _ (k - 1) c hc 0]
  simp only [Function.comp_apply]
  rw [getD_range_map _ L (L - 1 - r) (by omega) 0]

/-! ### C1: the Reshaper -/

/-- C1 (amended): for every trace splitting exactly into `k ≥ 2` segments of
`L ≥ 1` samples (`rows_splitting = L`), the Splitter pads nothing and the
Reshaper returns a matrix with `L` rows — one per intra-segment sample —
but only `k - 1` columns: the `range(0, int(max_split))` loop of
`convert_to2D` drops the final segment, so the column count is the segment
count MINUS ONE (the claim's "columns equal segment count" fails).  Every
entry `(r, c)` equals the raw-trace intensity of segment `c` at
intra-segment position `L - 1 - r`, so row index 0 holds the largest
intra-segment time. -/
theorem C1_reshaper (df : List TRow) (mt si : ℚ) (k L : ℕ)
    (hk : 2 ≤ k) (hL : 0 < L) (hr : rows_splitting mt si = (L : ℚ))
    (hlen : df.length = k * L) :
    add_split df mt si = some (assign_splits df (rows_splitting mt si)) ∧
    convert_to2D (assign_splits df (rows_splitting mt si)) =
      some (specReshaped df k L) ∧
    (specReshaped df k L).length = L ∧
    (∀ row ∈ specReshaped df k L, row.length = k - 1) ∧
    (∀ r c : ℕ, r < L → c < k - 1 →
      ((specReshaped df k L).getD r []).getD c 0 =
        (df.getD (c * L + (L - 1 - r)) default).intensity) := by
  obtain ⟨h1, h2⟩ := add_split_convert_block df mt si k L hk hL hr hlen
  exact ⟨h1, h2, specReshaped_length df k L, specReshaped_row_length df k L,
    fun r c hrL hc => specReshaped_entry df k L r c hrL hc⟩

/-- Witness for C1 (amended) at the 4-sample trace
`[(0,10),(1,20),(2,30),(3,40)]` with `rows_splitting 1 500 = 2`
(two segments of two samples), instantiating the entry property at
row 0, column 0. -/
theorem C1_reshaper_witness :
    add_split ([⟨0, 10⟩, ⟨1, 20⟩, ⟨2, 30⟩, ⟨3, 40⟩] : List TRow) 1 500 =
      some (assign_splits ([⟨0, 10⟩, ⟨1, 20⟩, ⟨2, 30⟩, ⟨3, 40⟩] : List TRow)
        (rows_splitting 1 500)) ∧
    convert_to2D (assign_splits ([⟨0, 10⟩, ⟨1, 20⟩, ⟨2, 30⟩, ⟨3, 40⟩] : List TRow)
        (rows_splitting 1 500)) =
      some (specReshaped ([⟨0, 10⟩, ⟨1, 20⟩, ⟨2, 30⟩, ⟨3, 40⟩] : List TRow) 2 2) ∧
    (specReshaped ([⟨0, 10⟩, ⟨1, 20⟩, ⟨2, 30⟩, ⟨3, 40⟩] : List TRow) 2 2).length = 2 ∧
    ((specReshaped ([⟨0, 10⟩, ⟨1, 20⟩, ⟨2, 30⟩, ⟨3, 40⟩] : List TRow) 2 2).getD 0 []).getD 0 0 =
      (([⟨0, 10⟩, ⟨1, 20⟩, ⟨2, 30⟩, ⟨3, 40⟩] : List TRow).getD
        (0 * 2 + (2 - 1 - 0)) default).intensity := by
  have h := C1_reshaper ([⟨0, 10⟩, ⟨1, 20⟩, ⟨2, 30⟩, ⟨3, 40⟩] : List TRow) 1 500 2 2
    (by norm_num) (by norm_num) (by norm_num [rows_splitting]) (by norm_num)
  exact ⟨h.1, h.2.1, h.2.2.1, h.2.2.2.2 0 0 (by norm_num) (by norm_num)⟩

/-- Counterexample for C1 as stated: the trace
`[(0,10),(1,20),(2,30),(3,40)]` with `rows_splitting 1 500 = 2` splits into
TWO segments (maximum segment index 1), yet the matrix `convert_to2D`
builds is `[[20],[10]]`, which has only ONE column — the final segment's
intensities 30, 40 appear nowhere.  "Columns equal segment count" is
false. -/
theorem C1_counterexample :
    add_split ([⟨0, 10⟩, ⟨1, 20⟩, ⟨2, 30⟩, ⟨3, 40⟩] : List TRow) 1 500 =
      some (assign_splits ([⟨0, 10⟩, ⟨1, 20⟩, ⟨2, 30⟩, ⟨3, 40⟩] : List TRow)
        (rows_splitting 1 500)) ∧
    convert_to2D (assign_splits ([⟨0, 10⟩, ⟨1, 20⟩, ⟨2, 30⟩, ⟨3, 40⟩] : List TRow)
        (rows_splitting 1 500)) = some [[20], [10]] ∧
    maxSplit (assign_splits ([⟨0, 10⟩, ⟨1, 20⟩, ⟨2, 30⟩, ⟨3, 40⟩] : List TRow)
        (rows_splitting 1 500)) + 1 = 2 ∧
    cols [[20], [10]] = 1 := by
  have hr : rows_splitting 1 500 = ((2 : ℕ) : ℚ) := by norm_num [rows_splitting]
  obtain ⟨h1, h2⟩ := add_split_convert_block
    ([⟨0, 10⟩, ⟨1, 20⟩, ⟨2, 30⟩, ⟨3, 40⟩] : List TRow) 1 500 2 2
    (by norm_num) (by norm_num) hr (by norm_num)
  have hspec : specReshaped ([⟨0, 10⟩, ⟨1, 20⟩, ⟨2, 30⟩, ⟨3, 40⟩] : List TRow) 2 2 =
      [[20], [10]] := by
    norm_num [specReshaped, transposeAt, List.range_succ]
  have hmax : maxSplit (assign_splits ([⟨0, 10⟩, ⟨1, 20⟩, ⟨2, 30⟩, ⟨3, 40⟩] : List TRow)
      (rows_splitting 1 500)) = ((2 - 1 : ℕ) : ℤ) := by
    rw [hr, assign_splits_natL _ 2 (by norm_num),
      show ([⟨0, 10⟩, ⟨1, 20⟩, ⟨2, 30⟩, ⟨3, 40⟩] : List TRow).length = 2 * 2 by norm_num]
    exact maxSplit_rangeMap _ 2 2 (by norm_num) (by norm_num)
  refine ⟨h1, by rw [h2, hspec], by rw [hmax]; norm_num, rfl⟩

/-! ### C4 and C7: the pipeline orchestrator -/

theorem parse_reduce_ok (data : List TRow) (mt si : ℚ) (xs : List (TRow × ℤ)) (M : Mat)
    (hmult : is_integer_multiple mt si = true)
    (hadd : add_split data mt si = some xs)
    (hconv : convert_to2D xs = some M) :
    parse_2D_chromatogram data mt (some si) 0 .noneB .noneN 0 =
      .ok { chrom_1D := xs, chrom_2D := M, sampling_interval := mt,
            modulation_time := si, shift := 0, solvent_cutoff := 0 } := by
  simp only [parse_2D_chromatogram]
  rw [if_neg (show ¬ ((0 : ℚ) > 0) by norm_num), if_pos hmult, hadd]
  simp [hconv]

/-- C4: evaluating the orchestrator on a concrete successful run (the
4000-sample `trace4`, modulation time 2 s, sampling interval 1 ms) shows
the two metadata fields come back SWAPPED: the constructor call
`GCxGC_FID(chrom, chrom_2D, modulation_time, sampling_interval, ...)`
feeds `modulation_time` into the constructor's `sampling_interval` slot
and vice versa, so the Sample's `.modulation_time` is `1` (the sampling
interval) and its `.sampling_interval` is `2` (the modulation time),
where the claim — and the repository's own test
`test_parse_2D_chromatogram_from_file` — require `(2, 1)`. -/
theorem C4_swapped_metadata :
    (parse_2D_chromatogram trace4 2 (some 1) 0 .noneB .noneN 0).map
      (fun s => (s.modulation_time, s.sampling_interval)) =
      .ok ((1 : ℚ), (2 : ℚ)) := by
  have hr : rows_splitting 2 1 = ((2000 : ℕ) : ℚ) := by norm_num [rows_splitting]
  have hlen : trace4.length = 2 * 2000 := by simp [trace4]
  obtain ⟨h1, h2⟩ := add_split_convert_block trace4 2 1 2 2000
    (by norm_num) (by norm_num) hr hlen
  have hmult : is_integer_multiple 2 1 = true := by
    unfold is_integer_multiple
    rw [decide_eq_true_eq]
    norm_num [round_eq]
  rw [parse_reduce_ok trace4 2 1 _ _ hmult h1 h2]
  rfl

/-- C7: the integer-multiple precondition gates the whole pipeline: when
`is_integer_multiple` rejects the (modulation time, sampling interval)
pair, `parse_2D_chromatogram` stops with the `AssertionError` (the spec's
`PreconditionError`) before any 2D matrix is built, and when the pair is
within tolerance that assertion never fires — any failure of a later stage
surfaces as a different error.  (The sampling interval is assumed
positive; Python would raise `ZeroDivisionError` on `si = 0`.) -/
theorem C7_integer_multiple_gate (data : List TRow) (mt si : ℚ) (_hsi : 0 < si)
    (shift : ℤ) (bt : BaselineType) (nm : NormalizeMode) (c : ℚ) :
    (is_integer_multiple mt si = false →
      parse_2D_chromatogram data mt (some si) shift bt nm c =
        .error .assertionError) ∧
    (is_integer_multiple mt si = true →
      parse_2D_chromatogram data mt (some si) shift bt nm c ≠
        .error .assertionError) := by
  constructor
  · intro hF
    simp only [parse_2D_chromatogram]
    rw [hF]
    simp
  · intro hT
    simp only [parse_2D_chromatogram]
    rw [if_pos hT]
    split
    · simp
    · split
      · simp
      · split
        · simp
        · simp

/-- Witness for C7: `(20, 3)` is rejected (ratio 20/3, distance 1/3 from
the nearest integer) and the empty-trace run stops with the assertion
error; `(2, 1)` passes the gate and the run fails later (here with the
Reshaper's error on an empty trace), never with the assertion error. -/
theorem C7_integer_multiple_gate_witness :
    parse_2D_chromatogram [] 20 (some 3) 0 .noneB .noneN 0 =
      .error .assertionError ∧
    parse_2D_chromatogram [] 2 (some 1) 0 .noneB .noneN 0 ≠
      .error .assertionError := by
  constructor
  · exact (C7_integer_multiple_gate [] 20 3 (by norm_num) 0 .noneB .noneN 0).1 (by
      unfold is_integer_multiple
      rw [decide_eq_false_iff_not]
      have hround : round ((20 : ℚ) / 3) = 7 := by norm_num [round_eq]
      rw [hround, show |((7 : ℤ) : ℚ) - 20 / 3| = 1 / 3 by
        rw [show ((7 : ℤ) : ℚ) - 20 / 3 = 1 / 3 by norm_num, abs_of_nonneg]
        norm_num]
      norm_num)
  · exact (C7_integer_multiple_gate [] 2 1 (by norm_num) 0 .noneB .noneN 0).2 (by
      unfold is_integer_multiple
      rw [decide_eq_true_eq]
      norm_num [round_eq])

end PyGCxGC
